import Mathlib

/-!
Verification of the spacer retrieval-and-extraction pipeline.

The repository ships an example notebook (explore.ipynb, two revisions) and a
README; the spacer package itself (Transport, Paginator, Extractors, models)
is imported by the notebook but its implementation is not part of the checked
sources.  Where the implementation is missing, the definitions below are
modelled from the specification and carry a doc comment starting
`Modelled from the spec:`.  Where the notebook records concrete behaviour of
the package (the printed repr of extracted threads, the printed column
indexes of extracted and stored tables, the default configuration values),
the definitions follow that recorded behaviour.
-/

namespace Spacer

/-! ## Configuration -/

/-- The process-wide configuration record.  Fields and all four defaults are
recorded in the notebook configuration cell (`config.max_retries = 0`,
`config.retry_backoff_factor = 0.1`, `config.retry_http_codes = [429, 500, 503]`,
`config.persist = True`, described there as "the default values").  The
backoff factor is a rational here. -/
structure Configuration where
  max_retries : Nat
  retry_backoff_factor : ℚ
  retry_http_codes : List Nat
  persist : Bool
deriving DecidableEq, Repr

/-- The default configuration, values exactly as the notebook's
"default values" cell records them, `persist = True` included (the notebook
also states that by default data is stored in the sqlite database
spacer.db). -/
def config : Configuration :=
  { max_retries := 0
    retry_backoff_factor := 0.1
    retry_http_codes := [429, 500, 503]
    persist := true }

/-! ## Transport -/

/-- One network-level outcome of a single HTTP GET attempt: either a response
with a status code and a body, or a connection-level failure. -/
inductive Response where
  | ok : Nat → String → Response
  | connError : Response
deriving DecidableEq, Repr

/-- Result of a whole `fetch`: the page body on success, `retryExhausted`
carrying the last response when the retryable condition persisted past
`max_retries`, or `requestFailed` carrying the non-retryable response. -/
inductive FetchResult where
  | success : String → FetchResult
  | retryExhausted : Response → FetchResult
  | requestFailed : Response → FetchResult
deriving DecidableEq, Repr

/-- Modelled from the spec: a response is retryable when its status code is in
`retry_http_codes` or it is a connection-level failure. -/
def retryable (cfg : Configuration) : Response → Bool
  | Response.ok s _ => cfg.retry_http_codes.contains s
  | Response.connError => true

/-- Modelled from the spec: a successful HTTP response (2xx status). -/
def isSuccess : Response → Bool
  | Response.ok s _ => decide (200 ≤ s ∧ s < 300)
  | Response.connError => false

/-- The body of a response (empty for a connection failure). -/
def bodyOf : Response → String
  | Response.ok _ b => b
  | Response.connError => ""

/-- Modelled from the spec: the retry loop of `Transport.fetch`.  The server is
a function from the 0-based attempt index to the response of that attempt;
`a` is the current attempt index and the second argument the number of
retries still allowed.  A retryable response consumes a retry when one is
left and otherwise surfaces `retryExhausted` carrying the last response; a
non-retryable response succeeds or fails immediately. -/
def fetchFrom (cfg : Configuration) (server : Nat → Response) : Nat → Nat → FetchResult
  | a, 0 =>
    let r := server a
    if retryable cfg r then FetchResult.retryExhausted r
    else if isSuccess r then FetchResult.success (bodyOf r)
    else FetchResult.requestFailed r
  | a, n + 1 =>
    let r := server a
    if retryable cfg r then fetchFrom cfg server (a + 1) n
    else if isSuccess r then FetchResult.success (bodyOf r)
    else FetchResult.requestFailed r

/-- Modelled from the spec: `fetch` starts at attempt 0 with `max_retries`
retries allowed, so at most `max_retries + 1` requests are issued. -/
def fetch (cfg : Configuration) (server : Nat → Response) : FetchResult :=
  fetchFrom cfg server 0 cfg.max_retries

/-- The number of requests the retry loop issues from attempt `a` with the
given number of retries left. -/
def attemptsFrom (cfg : Configuration) (server : Nat → Response) : Nat → Nat → Nat
  | _, 0 => 1
  | a, n + 1 => if retryable cfg (server a) then 1 + attemptsFrom cfg server (a + 1) n else 1

/-- Total number of requests a `fetch` issues. -/
def attempts (cfg : Configuration) (server : Nat → Response) : Nat :=
  attemptsFrom cfg server 0 cfg.max_retries

/-- The configuration of the retry scenario in the spec:
`retry_http_codes = [503]`, `max_retries = 2`. -/
def cfg503 : Configuration :=
  { max_retries := 2
    retry_backoff_factor := 0.1
    retry_http_codes := [503]
    persist := false }

/-- The server of the retry scenario in the spec: responds 503, 503, then 200. -/
def server503 (i : Nat) : Response :=
  if i < 2 then Response.ok 503 "service unavailable" else Response.ok 200 "page body"

/-! ## Paginator -/

/-- A raw page: its 1-based page number, the rows found on it, and the
"has-next-page" flag derived from that page's own markup. -/
structure RawPage (α : Type) where
  pageNumber : Nat
  records : List α
  hasNext : Bool
deriving DecidableEq, Repr

/-- Modelled from the spec: the pagination loop.  A resource maps a page
number to that page's rows and its has-next-page flag; the loop fetches page
`p`, and requests `p + 1` only when page `p` reported a next page.  `fuel`
bounds the recursion; every run the spec talks about terminates within any
sufficiently large fuel. -/
def paginateFrom {α : Type} (resource : Nat → List α × Bool) : Nat → Nat → List (RawPage α)
  | _, 0 => []
  | p, fuel + 1 =>
    if (resource p).2 then
      ⟨p, (resource p).1, (resource p).2⟩ :: paginateFrom resource (p + 1) fuel
    else [⟨p, (resource p).1, (resource p).2⟩]

/-- Modelled from the spec: `paginate` starts fresh at page 1. -/
def paginate {α : Type} (resource : Nat → List α × Bool) (fuel : Nat) : List (RawPage α) :=
  paginateFrom resource 1 fuel

/-- Modelled from the spec: `get` retrieves page 1 only. -/
def getPage {α : Type} (resource : Nat → List α × Bool) : RawPage α :=
  ⟨1, (resource 1).1, (resource 1).2⟩

/-- The 3-page scenario resource: pages 1 and 2 carry a next control,
page 3 does not. -/
def resource3 : Nat → List Nat × Bool := fun p =>
  if p = 1 then ([10], true) else if p = 2 then ([20], true) else ([30], false)

/-! ## Extractors -/

/-- A user record with the columns the notebook prints for extracted users:
id, username, role, join_date, messages, reaction_score, points. -/
structure UserRec where
  id : Nat
  username : String
  role : String
  join_date : String
  messages : Nat
  reaction_score : Nat
  points : Nat
deriving DecidableEq, Repr

/-- A post record with the columns the notebook prints for extracted posts:
id, user_id, username, thread, message, likes, time_posted. -/
structure PostRec where
  id : Nat
  user_id : Nat
  username : String
  thread : String
  message : String
  likes : Nat
  time_posted : String
deriving DecidableEq, Repr

/-- Modelled from the spec: one raw post row on a thread page, carrying the
post data and its author's profile data; the like count is optional on the
page. -/
structure PostRow where
  post_id : Nat
  author : UserRec
  message : String
  likes : Option Nat
  time_posted : String
deriving DecidableEq, Repr

/-- Modelled from the spec: turn a raw post row of thread `tid` into a Post
record; a missing like count defaults to 0. -/
def rowToPost (tid : String) (r : PostRow) : PostRec :=
  { id := r.post_id
    user_id := r.author.id
    username := r.author.username
    thread := tid
    message := r.message
    likes := r.likes.getD 0
    time_posted := r.time_posted }

/-- Modelled from the spec: deduplicate user records by id, keeping the first
occurrence of each id; `seen` accumulates the ids already kept. -/
def dedupByIdGo (seen : List Nat) : List UserRec → List UserRec
  | [] => []
  | u :: us =>
    if u.id ∈ seen then dedupByIdGo seen us
    else u :: dedupByIdGo (u.id :: seen) us

/-- Modelled from the spec: deduplicate a list of user records by id. -/
def dedupById (l : List UserRec) : List UserRec := dedupByIdGo [] l

/-- Modelled from the spec: the Post extractor for a page of thread `tid`:
every row yields a Post record, and the page's users deduplicated by id. -/
def postsExtract (tid : String) (rows : List PostRow) : List PostRec × List UserRec :=
  (rows.map (rowToPost tid), dedupById (rows.map PostRow.author))

/-- Modelled from the spec: one raw row of a forum's thread listing as found
in the markup, each structural part possibly missing. -/
structure RawThreadRow where
  ident : Option String
  title : Option String
deriving DecidableEq, Repr

/-- Modelled from the spec: parsing a listing row requires the thread
identifier; a row without one is malformed. -/
def parseThreadRow (r : RawThreadRow) : Option String := r.ident

/-- The result of thread extraction: the extracted identifiers and the
number of skipped rows reported as a non-fatal extraction warning. -/
structure ThreadsExtraction where
  threads : List String
  skipped : Nat
deriving DecidableEq, Repr

/-- Modelled from the spec: the Thread extractor walks the page's rows once;
a row that parses contributes a record, a malformed row is skipped and
counted, and extraction continues. -/
def extractThreads : List RawThreadRow → ThreadsExtraction
  | [] => ⟨[], 0⟩
  | r :: rs =>
    let rest := extractThreads rs
    match parseThreadRow r with
    | some t => ⟨t :: rest.threads, rest.skipped⟩
    | none => ⟨rest.threads, rest.skipped + 1⟩

/-- The empty-forum fixture: one page with zero listing rows and no next
control. -/
def emptyForum : Nat → List RawThreadRow × Bool := fun _ => ([], false)

/-- A fully-populated thread-listing row as it appears on a forum page:
identifier/slug, title, and listing metadata. -/
structure ThreadListingRow where
  ident : String
  title : String
  post_count : Nat
  last_activity : String
deriving DecidableEq, Repr

/-- Thread-list extraction as the notebook records it: indexing the result of
`Threads().get(forum).extract()` prints a bare identifier string
(`threads[0]` reprs as a quoted slug), so the extractor returns the
identifier of each listed row, nothing more. -/
def threadsExtractCode : List ThreadListingRow → List String
  | [] => []
  | r :: rs => r.ident :: threadsExtractCode rs

/-- A one-row listing page. -/
def pageTitleA : List ThreadListingRow :=
  [{ ident := "nasas-perseverance-is-exploring-mars-come-watch-updates-with-us.37226"
     title := "Title A", post_count := 5, last_activity := "2021-02-18" }]

/-- The same listing page with a different title and metadata. -/
def pageTitleB : List ThreadListingRow :=
  [{ ident := "nasas-perseverance-is-exploring-mars-come-watch-updates-with-us.37226"
     title := "Title B", post_count := 7, last_activity := "2021-03-01" }]

/-! ## Persistence adapter -/

/-- A stored post row with the columns the notebook prints for
`get_posts_by_thread`: id, user_id, username, thread, message, likes,
time_posted, last_updated. -/
structure StoredPost where
  id : Nat
  user_id : Nat
  username : String
  thread : String
  message : String
  likes : Nat
  time_posted : String
  last_updated : Nat
deriving DecidableEq, Repr

/-- A stored user row with the columns the notebook prints for
`get_all_users`: id, username, role, join_date, messages, reaction_score,
points, last_updated. -/
structure StoredUser where
  id : Nat
  username : String
  role : String
  join_date : String
  messages : Nat
  reaction_score : Nat
  points : Nat
  last_updated : Nat
deriving DecidableEq, Repr

/-- Store a Post record, stamping the `last_updated` timestamp. -/
def storePost (now : Nat) (p : PostRec) : StoredPost :=
  { id := p.id
    user_id := p.user_id
    username := p.username
    thread := p.thread
    message := p.message
    likes := p.likes
    time_posted := p.time_posted
    last_updated := now }

/-- Forget the timestamp column of a stored post row. -/
def stripTimestamp (r : StoredPost) : PostRec :=
  { id := r.id
    user_id := r.user_id
    username := r.username
    thread := r.thread
    message := r.message
    likes := r.likes
    time_posted := r.time_posted }

/-- Modelled from the spec: upsert one Post keyed by its id; an existing row
with that id is overwritten (its `last_updated` refreshed), otherwise the
row is appended. -/
def upsertPost (now : Nat) (db : List StoredPost) (p : PostRec) : List StoredPost :=
  if p.id ∈ db.map StoredPost.id then
    db.map (fun r => if r.id = p.id then storePost now p else r)
  else db ++ [storePost now p]

/-- Modelled from the spec: upsert a sequence of Post records in order. -/
def upsert_posts (now : Nat) (db : List StoredPost) (ps : List PostRec) : List StoredPost :=
  ps.foldl (upsertPost now) db

/-- Modelled from the spec: the query surface returning the stored posts of
one thread. -/
def get_posts_by_thread (tid : String) (db : List StoredPost) : List StoredPost :=
  db.filter (fun r => r.thread == tid)

/-- The tabular form of a stored post row: column-name/value pairs, in the
column order the notebook prints. -/
def storedPostToRow (r : StoredPost) : List (String × String) :=
  [("id", toString r.id), ("user_id", toString r.user_id), ("username", r.username),
   ("thread", r.thread), ("message", r.message), ("likes", toString r.likes),
   ("time_posted", r.time_posted), ("last_updated", toString r.last_updated)]

/-- The tabular form of a stored user row. -/
def storedUserToRow (u : StoredUser) : List (String × String) :=
  [("id", toString u.id), ("username", u.username), ("role", u.role),
   ("join_date", u.join_date), ("messages", toString u.messages),
   ("reaction_score", toString u.reaction_score), ("points", toString u.points),
   ("last_updated", toString u.last_updated)]

/-- The column names of the stored Post table. -/
def storedPostColumns (r : StoredPost) : List String :=
  (storedPostToRow r).map Prod.fst

/-- The column names of the stored User table. -/
def storedUserColumns (u : StoredUser) : List String :=
  (storedUserToRow u).map Prod.fst

/-- The Post-table column set exactly as claim C8 states it. -/
def claimedPostColumnsC8 : List String :=
  ["id", "user_id", "thread", "message", "likes", "time_posted", "last_updated"]

/-- A concrete stored post row. -/
def samplePost : StoredPost :=
  { id := 1, user_id := 2, username := "alice", thread := "t.1",
    message := "hi", likes := 0, time_posted := "2021-02-18", last_updated := 7 }

/-- A concrete stored user row. -/
def sampleUser : StoredUser :=
  { id := 2, username := "alice", role := "member", join_date := "2019-05-01",
    messages := 10, reaction_score := 3, points := 12, last_updated := 7 }

/-- A concrete author profile. -/
def alice : UserRec :=
  { id := 2, username := "alice", role := "member", join_date := "2019-05-01",
    messages := 10, reaction_score := 3, points := 12 }

/-- A concrete two-row thread page where the same author posted twice. -/
def sampleRows : List PostRow :=
  [{ post_id := 1, author := alice, message := "hi", likes := some 2,
     time_posted := "2021-02-18" },
   { post_id := 2, author := alice, message := "again", likes := none,
     time_posted := "2021-02-19" }]

/-- A concrete Post record. -/
def samplePostRec : PostRec :=
  { id := 1, user_id := 2, username := "alice", thread := "t.1",
    message := "hi", likes := 2, time_posted := "2021-02-18" }

/-- A well-formed listing row. -/
def goodRowA : RawThreadRow := { ident := some "a.1", title := some "A" }

/-- A malformed listing row: its identifier is missing. -/
def badRowB : RawThreadRow := { ident := none, title := some "B" }

/-- Another well-formed listing row (its optional title is absent). -/
def goodRowC : RawThreadRow := { ident := some "c.3", title := none }

end Spacer

namespace Spacer

/-! ## Transport lemmas -/

/-- When every attempt is retryable, the loop uses all its retries and ends in
`retryExhausted` carrying the response of the last attempt, having issued one
request per unit of fuel plus one. -/
theorem fetchFrom_all_retryable (cfg : Configuration) (server : Nat → Response)
    (hall : ∀ i, retryable cfg (server i) = true) :
    ∀ n a, fetchFrom cfg server a n = FetchResult.retryExhausted (server (a + n)) ∧
      attemptsFrom cfg server a n = n + 1 := by
  intro n
  induction n with
  | zero => intro a; simp [fetchFrom, attemptsFrom, hall a]
  | succ n ih =>
    intro a
    have h := ih (a + 1)
    constructor
    · show fetchFrom cfg server a (n + 1) = _
      rw [fetchFrom, hall a]
      simp only [if_true]
      rw [h.1]
      have : a + 1 + n = a + (n + 1) := by omega
      rw [this]
    · show attemptsFrom cfg server a (n + 1) = _
      rw [attemptsFrom, hall a]
      simp only [if_true]
      rw [h.2]
      omega

/-- Claim C1: with `max_retries = k`, Transport issues at most `k + 1` requests
per fetch; when every attempt is retryable it fails with `RetryExhausted`
carrying the last response after exactly `k + 1` requests, and in the
503,503,200 scenario with `max_retries = 2` and `retry_http_codes = [503]`
the fetch succeeds on the third attempt with the 200 body. -/
theorem transport_retry_policy (cfg : Configuration) (server : Nat → Response)
    (hall : ∀ i, retryable cfg (server i) = true) :
    attempts cfg server = cfg.max_retries + 1 ∧
    fetch cfg server = FetchResult.retryExhausted (server cfg.max_retries) ∧
    fetch cfg503 server503 = FetchResult.success "page body" ∧
    attempts cfg503 server503 = 3 := by
  have h := fetchFrom_all_retryable cfg server hall cfg.max_retries 0
  refine ⟨h.2, ?_, by decide, by decide⟩
  rw [fetch, h.1, Nat.zero_add]

/-- Witness for C1: a server that always fails at the connection level, under
the scenario configuration, is retried to exhaustion in exactly
`max_retries + 1 = 3` requests. -/
theorem transport_retry_policy_witness :
    (∀ i : Nat, retryable cfg503 ((fun _ => Response.connError) i) = true) ∧
    attempts cfg503 (fun _ => Response.connError) = 3 ∧
    fetch cfg503 (fun _ => Response.connError) =
      FetchResult.retryExhausted Response.connError := by
  have h := transport_retry_policy cfg503 (fun _ => Response.connError) (fun i => rfl)
  exact ⟨fun i => rfl, h.1, h.2.1⟩

/-- Claim C4 counterexample: the claim states the default `persist` value is
`False`, but the notebook's "default values" cell records
`config.persist = True`, so the default configuration refutes the claimed
`persist = False` conjunct. -/
theorem config_persist_default_true :
    config.persist = true ∧ ¬ config.persist = false := by
  refine ⟨rfl, ?_⟩
  intro h
  cases h

/-- Claim C4 (amended): the configuration defaults before any user mutation
are `max_retries = 0`, `retry_backoff_factor = 0.1 = 1/10`,
`retry_http_codes = [429, 500, 503]` (as a set: exactly those three codes),
and `persist = True`. -/
theorem config_defaults :
    config.max_retries = 0 ∧
    config.retry_backoff_factor = 1 / 10 ∧
    config.retry_http_codes = [429, 500, 503] ∧
    config.persist = true ∧
    ∀ c, c ∈ config.retry_http_codes ↔ (c = 429 ∨ c = 500 ∨ c = 503) := by
  refine ⟨rfl, by norm_num [config], rfl, rfl, fun c => ?_⟩
  simp [config]

/-! ## Paginator lemmas -/

/-- When the first `m` pages after `p` report a next page and page `p + m`
does not, the pagination loop from `p` yields exactly the pages
`p, p + 1, ..., p + m`, each taken from the resource. -/
theorem paginateFrom_run {α : Type} (resource : Nat → List α × Bool) :
    ∀ m p fuel, (∀ k, k < m → (resource (p + k)).2 = true) →
      (resource (p + m)).2 = false → m < fuel →
      paginateFrom resource p fuel =
        (List.range' p (m + 1)).map (fun q => ⟨q, (resource q).1, (resource q).2⟩) := by
  intro m
  induction m with
  | zero =>
    intro p fuel hprev hstop hfuel
    obtain ⟨f, rfl⟩ : ∃ f, fuel = f + 1 := ⟨fuel - 1, by omega⟩
    have h0 : (resource p).2 = false := by simpa using hstop
    simp [paginateFrom, h0]
  | succ m ih =>
    intro p fuel hprev hstop hfuel
    obtain ⟨f, rfl⟩ : ∃ f, fuel = f + 1 := ⟨fuel - 1, by omega⟩
    have h0 : (resource p).2 = true := by simpa using hprev 0 (by omega)
    have hrest : paginateFrom resource (p + 1) f =
        (List.range' (p + 1) (m + 1)).map
          (fun q => ⟨q, (resource q).1, (resource q).2⟩) := by
      refine ih (p + 1) f (fun k hk => ?_) ?_ (by omega)
      · have h := hprev (k + 1) (by omega)
        have e : p + (k + 1) = p + 1 + k := by omega
        rwa [e] at h
      · have e : p + (m + 1) = p + 1 + m := by omega
        rwa [e] at hstop
    rw [List.range'_succ]
    simp [paginateFrom, h0, hrest]

/-- Claim C2: a pagination run yields pages starting at page 1 with strictly
increasing, gap-free page numbers; a page other than the last carries
has-next-page = true and the run ends exactly at the first page reporting
has-next-page = false, with no total-page lookahead; the 3-page scenario
yields exactly the pages 1, 2, 3 in order. -/
theorem paginate_strictly_increasing_run {α : Type} (resource : Nat → List α × Bool)
    (m fuel : Nat) (hprev : ∀ k, k < m → (resource (1 + k)).2 = true)
    (hstop : (resource (1 + m)).2 = false) (hfuel : m < fuel) :
    paginate resource fuel =
      (List.range' 1 (m + 1)).map (fun q => ⟨q, (resource q).1, (resource q).2⟩) ∧
    (paginate resource fuel).map RawPage.pageNumber = List.range' 1 (m + 1) ∧
    (paginate resource fuel).length = m + 1 ∧
    (∀ page ∈ paginate resource fuel, page.hasNext = false ↔ page.pageNumber = 1 + m) ∧
    paginate resource3 10 = [⟨1, [10], true⟩, ⟨2, [20], true⟩, ⟨3, [30], false⟩] := by
  have h : paginate resource fuel =
      (List.range' 1 (m + 1)).map (fun q => ⟨q, (resource q).1, (resource q).2⟩) :=
    paginateFrom_run resource m 1 fuel hprev hstop hfuel
  refine ⟨h, ?_, ?_, ?_, by decide⟩
  · have hcomp : RawPage.pageNumber ∘
        (fun q : Nat => (⟨q, (resource q).1, (resource q).2⟩ : RawPage α)) = id := rfl
    rw [h, List.map_map, hcomp, List.map_id]
  · rw [h]
    simp
  · intro page hmem
    rw [h] at hmem
    simp only [List.mem_map, List.mem_range'_1] at hmem
    obtain ⟨q, hq, rfl⟩ := hmem
    show (resource q).2 = false ↔ q = 1 + m
    constructor
    · intro hfalse
      by_contra hne
      have hk : q - 1 < m := by omega
      have ht := hprev (q - 1) hk
      have e : 1 + (q - 1) = q := by omega
      rw [e] at ht
      rw [ht] at hfalse
      cases hfalse
    · intro heq
      rw [heq]
      exact hstop

/-- Witness for C2: the 3-page scenario resource satisfies the hypotheses with
`m = 2`, and its pagination run is the three pages taken from the resource. -/
theorem paginate_strictly_increasing_run_witness :
    (∀ k, k < 2 → (resource3 (1 + k)).2 = true) ∧ (resource3 (1 + 2)).2 = false ∧
    paginate resource3 10 =
      (List.range' 1 3).map (fun q => ⟨q, (resource3 q).1, (resource3 q).2⟩) := by
  have h := paginate_strictly_increasing_run resource3 2 10 (by decide) (by decide) (by omega)
  exact ⟨by decide, by decide, h.1⟩

/-- Claim C5: when a resource's first page reports has-next-page = false,
`paginate` yields exactly that one page and stops; on the empty-forum
fixture, extracting the single page returns an empty sequence with zero
skipped rows, and pagination yields exactly one page. -/
theorem paginate_empty_resource (resource : Nat → List RawThreadRow × Bool) (fuel : Nat)
    (hstop : (resource 1).2 = false) (hfuel : 0 < fuel) :
    paginate resource fuel = [⟨1, (resource 1).1, false⟩] ∧
    (extractThreads (getPage emptyForum).records).threads = [] ∧
    (extractThreads (getPage emptyForum).records).skipped = 0 ∧
    paginate emptyForum fuel = [⟨1, [], false⟩] := by
  have h := paginateFrom_run resource 0 1 fuel (fun k hk => absurd hk (Nat.not_lt_zero k))
    (by simpa using hstop) hfuel
  have h2 := paginateFrom_run emptyForum 0 1 fuel (fun k hk => absurd hk (Nat.not_lt_zero k))
    rfl hfuel
  refine ⟨?_, rfl, rfl, ?_⟩
  · rw [paginate, h]
    simp [hstop]
  · rw [paginate, h2]
    simp [emptyForum]

/-- Witness for C5: the empty-forum fixture itself, with fuel 1. -/
theorem paginate_empty_resource_witness :
    (emptyForum 1).2 = false ∧ 0 < 1 ∧
    paginate emptyForum 1 = [⟨1, (emptyForum 1).1, false⟩] := by
  have h := paginate_empty_resource emptyForum 1 rfl (by omega)
  exact ⟨rfl, by omega, h.1⟩

/-! ## Extractor lemmas -/

/-- Every record the dedup pass keeps comes from the input, and its id was not
among the already-seen ids. -/
theorem dedupByIdGo_mem : ∀ (l : List UserRec) (seen : List Nat) (v : UserRec),
    v ∈ dedupByIdGo seen l → v ∈ l ∧ v.id ∉ seen := by
  intro l
  induction l with
  | nil => intro seen v hv; simp [dedupByIdGo] at hv
  | cons u us ih =>
    intro seen v hv
    rw [dedupByIdGo] at hv
    by_cases hc : u.id ∈ seen
    · rw [if_pos hc] at hv
      have h := ih seen v hv
      exact ⟨List.mem_cons_of_mem _ h.1, h.2⟩
    · rw [if_neg hc] at hv
      rcases List.mem_cons.mp hv with h | h
      · subst h
        exact ⟨List.mem_cons_self _ _, hc⟩
      · have h2 := ih (u.id :: seen) v h
        refine ⟨List.mem_cons_of_mem _ h2.1, fun hmem => ?_⟩
        exact h2.2 (List.mem_cons_of_mem _ hmem)

/-- An id occurring in the input and not yet seen occurs in the dedup output. -/
theorem dedupByIdGo_id_mem : ∀ (l : List UserRec) (seen : List Nat) (a : Nat),
    a ∈ l.map UserRec.id → a ∉ seen → a ∈ (dedupByIdGo seen l).map UserRec.id := by
  intro l
  induction l with
  | nil => intro seen a ha _; simp at ha
  | cons u us ih =>
    intro seen a ha hns
    rw [List.map_cons, List.mem_cons] at ha
    rw [dedupByIdGo]
    by_cases hc : u.id ∈ seen
    · rw [if_pos hc]
      rcases ha with h | h
      · exact absurd (h ▸ hc) hns
      · exact ih seen a h hns
    · rw [if_neg hc, List.map_cons]
      rcases ha with h | h
      · rw [h]
        exact List.mem_cons_self _ _
      · by_cases hau : a = u.id
        · rw [hau]
          exact List.mem_cons_self _ _
        · refine List.mem_cons_of_mem _ (ih (u.id :: seen) a h ?_)
          intro hmem
          rcases List.mem_cons.mp hmem with h2 | h2
          · exact hau h2
          · exact hns h2

/-- The ids of the dedup output are pairwise distinct. -/
theorem dedupByIdGo_nodup : ∀ (l : List UserRec) (seen : List Nat),
    ((dedupByIdGo seen l).map UserRec.id).Nodup := by
  intro l
  induction l with
  | nil => intro seen; simp [dedupByIdGo]
  | cons u us ih =>
    intro seen
    rw [dedupByIdGo]
    by_cases hc : u.id ∈ seen
    · rw [if_pos hc]
      exact ih seen
    · rw [if_neg hc, List.map_cons, List.nodup_cons]
      refine ⟨fun hmem => ?_, ih (u.id :: seen)⟩
      rw [List.mem_map] at hmem
      obtain ⟨v, hv, hvid⟩ := hmem
      have h := (dedupByIdGo_mem us (u.id :: seen) v hv).2
      exact h (by rw [hvid]; exact List.mem_cons_self _ _)

/-- Claim C3: on any page the Post extractor's User output carries each
occurring user id exactly once, while every post row still yields its own
Post record referencing its author's user id. -/
theorem post_extractor_user_dedup (tid : String) (rows : List PostRow) :
    (((postsExtract tid rows).2).map UserRec.id).Nodup ∧
    (∀ a, a ∈ ((postsExtract tid rows).2).map UserRec.id ↔
      a ∈ rows.map (fun r => r.author.id)) ∧
    (∀ a, a ∈ rows.map (fun r => r.author.id) →
      (((postsExtract tid rows).2).map UserRec.id).count a = 1) ∧
    ((postsExtract tid rows).1).length = rows.length ∧
    ((postsExtract tid rows).1).map PostRec.user_id =
      rows.map (fun r => r.author.id) := by
  have hsnd : (postsExtract tid rows).2 = dedupByIdGo [] (rows.map PostRow.author) := rfl
  have hmapids : (rows.map PostRow.author).map UserRec.id =
      rows.map (fun r => r.author.id) := by
    rw [List.map_map]
    rfl
  have hiff : ∀ a, a ∈ ((postsExtract tid rows).2).map UserRec.id ↔
      a ∈ rows.map (fun r => r.author.id) := by
    intro a
    rw [hsnd, ← hmapids]
    constructor
    · intro ha
      rw [List.mem_map] at ha
      obtain ⟨v, hv, rfl⟩ := ha
      exact List.mem_map_of_mem _ (dedupByIdGo_mem _ _ v hv).1
    · intro ha
      exact dedupByIdGo_id_mem _ [] a ha (List.not_mem_nil a)
  have hnodup : (((postsExtract tid rows).2).map UserRec.id).Nodup := by
    rw [hsnd]
    exact dedupByIdGo_nodup _ _
  refine ⟨hnodup, hiff, ?_, ?_, ?_⟩
  · intro a ha
    exact List.count_eq_one_of_mem hnodup ((hiff a).mpr ha)
  · exact List.length_map _ _
  · show (rows.map (rowToPost tid)).map PostRec.user_id = _
    rw [List.map_map]
    rfl

/-- The Thread extractor's single pass agrees with filtering out the rows
that fail to parse, and every input row is either extracted or counted as
skipped. -/
theorem extractThreads_spec : ∀ rows : List RawThreadRow,
    (extractThreads rows).threads = rows.filterMap parseThreadRow ∧
    (extractThreads rows).skipped =
      (rows.filter (fun r => (parseThreadRow r).isNone)).length ∧
    (extractThreads rows).threads.length + (extractThreads rows).skipped =
      rows.length := by
  intro rows
  induction rows with
  | nil => exact ⟨rfl, rfl, rfl⟩
  | cons r rs ih =>
    cases hp : parseThreadRow r with
    | some t =>
      refine ⟨?_, ?_, ?_⟩
      · simp [extractThreads, hp, ih.1]
      · simp [extractThreads, hp, ih.2.1]
      · have h := ih.2.2
        simp only [extractThreads, hp]
        simp only [List.length_cons]
        omega
    | none =>
      refine ⟨?_, ?_, ?_⟩
      · simp [extractThreads, hp, ih.1]
      · simp [extractThreads, hp, ih.2.1]
      · have h := ih.2.2
        simp only [extractThreads, hp]
        simp only [List.length_cons]
        omega

/-- Claim C6: a malformed row (one whose required field is missing) is
skipped, counted, and reported, not fatal: the extracted sequence is that of
the parseable rows, the skip count matches the number of malformed rows,
every row is either extracted or counted, and inserting one malformed row
into a page leaves the extracted sequence unchanged while increasing the
reported skip count by exactly one. -/
theorem malformed_row_skipped_counted (rows pre post : List RawThreadRow)
    (bad : RawThreadRow) (hbad : parseThreadRow bad = none) :
    (extractThreads rows).threads = rows.filterMap parseThreadRow ∧
    (extractThreads rows).skipped =
      (rows.filter (fun r => (parseThreadRow r).isNone)).length ∧
    (extractThreads rows).threads.length + (extractThreads rows).skipped =
      rows.length ∧
    (extractThreads (pre ++ bad :: post)).threads =
      (extractThreads (pre ++ post)).threads ∧
    (extractThreads (pre ++ bad :: post)).skipped =
      (extractThreads (pre ++ post)).skipped + 1 := by
  obtain ⟨h1, h2, h3⟩ := extractThreads_spec rows
  refine ⟨h1, h2, h3, ?_, ?_⟩
  · rw [(extractThreads_spec _).1, (extractThreads_spec _).1]
    simp [List.filterMap_append, hbad]
  · rw [(extractThreads_spec _).2.1, (extractThreads_spec _).2.1]
    simp [List.filter_append, hbad]
    omega

/-- Witness for C6: a concrete three-row page whose middle row is malformed
loses only that row, and its skip count exceeds by one that of the page
without the malformed row. -/
theorem malformed_row_skipped_counted_witness :
    parseThreadRow badRowB = none ∧
    (extractThreads ([goodRowA] ++ badRowB :: [goodRowC])).threads =
      (extractThreads ([goodRowA] ++ [goodRowC])).threads ∧
    (extractThreads ([goodRowA] ++ badRowB :: [goodRowC])).skipped =
      (extractThreads ([goodRowA] ++ [goodRowC])).skipped + 1 := by
  have h := malformed_row_skipped_counted [] [goodRowA] [goodRowC] badRowB rfl
  exact ⟨rfl, h.2.2.2.1, h.2.2.2.2⟩

/-- Claim C7 counterexample: two listing pages that differ only in their
titles and listing metadata produce identical Thread-extractor output, so
the extractor's output elements cannot be records carrying the title or the
listing metadata. -/
theorem threads_extract_drops_metadata :
    threadsExtractCode pageTitleA = threadsExtractCode pageTitleB ∧
    pageTitleA.map ThreadListingRow.title ≠ pageTitleB.map ThreadListingRow.title ∧
    pageTitleA.map ThreadListingRow.post_count ≠
      pageTitleB.map ThreadListingRow.post_count := by
  refine ⟨rfl, ?_, ?_⟩ <;> decide

/-- Claim C7 (amended): every element of the ordered sequence returned by the
Thread extractor is the thread's identifier/slug string of the corresponding
listing row, in listing order; on the fixture page the output is exactly the
slug the notebook prints. -/
theorem threads_extract_identifiers (rows : List ThreadListingRow) :
    threadsExtractCode rows = rows.map ThreadListingRow.ident ∧
    threadsExtractCode pageTitleA =
      ["nasas-perseverance-is-exploring-mars-come-watch-updates-with-us.37226"] := by
  refine ⟨?_, rfl⟩
  induction rows with
  | nil => rfl
  | cons r rs ih => rw [threadsExtractCode, ih, List.map_cons]

/-! ## Persistence lemmas -/

/-- Overwriting the row with a matching id leaves the stored id sequence
unchanged. -/
theorem upsert_overwrite_map_id (now : Nat) (p : PostRec) :
    ∀ db : List StoredPost,
      (db.map (fun r => if r.id = p.id then storePost now p else r)).map StoredPost.id =
        db.map StoredPost.id := by
  intro db
  induction db with
  | nil => rfl
  | cons r rs ih =>
    simp only [List.map_cons, ih]
    by_cases h : r.id = p.id
    · rw [if_pos h]
      simp [storePost, h]
    · rw [if_neg h]

/-- Upserting records whose ids are fresh and pairwise distinct appends their
stored rows in order. -/
theorem upsert_posts_append (now : Nat) : ∀ (ps : List PostRec) (db : List StoredPost),
    (∀ q ∈ ps, q.id ∉ db.map StoredPost.id) → (ps.map PostRec.id).Nodup →
    upsert_posts now db ps = db ++ ps.map (storePost now) := by
  intro ps
  induction ps with
  | nil =>
    intro db _ _
    simp [upsert_posts]
  | cons p ps ih =>
    intro db hdisj hnodup
    have hmem : p.id ∉ db.map StoredPost.id := hdisj p (List.mem_cons_self _ _)
    have hstep : upsertPost now db p = db ++ [storePost now p] := by
      rw [upsertPost, if_neg hmem]
    have hid : (storePost now p).id = p.id := rfl
    rw [List.map_cons, List.nodup_cons] at hnodup
    have hrest : upsert_posts now (db ++ [storePost now p]) ps =
        (db ++ [storePost now p]) ++ ps.map (storePost now) := by
      refine ih (db ++ [storePost now p]) (fun q hq => ?_) hnodup.2
      rw [List.map_append, List.mem_append]
      rintro (h | h)
      · exact hdisj q (List.mem_cons_of_mem _ hq) h
      · simp only [List.map_cons, List.map_nil, List.mem_singleton, hid] at h
        exact hnodup.1 (h ▸ List.mem_map_of_mem PostRec.id hq)
    show upsert_posts now (upsertPost now db p) ps = _
    rw [hstep, hrest, List.append_assoc]
    rfl

/-- Storing a post then dropping the timestamp recovers the record. -/
theorem stripTimestamp_storePost (now : Nat) (p : PostRec) :
    stripTimestamp (storePost now p) = p := rfl

/-- Every Post record the extractor produces for thread `tid` carries that
thread identifier. -/
theorem postsExtract_thread (tid : String) (rows : List PostRow) :
    ∀ q ∈ (postsExtract tid rows).1, q.thread = tid := by
  intro q hq
  rw [postsExtract] at hq
  simp only [List.mem_map] at hq
  obtain ⟨r, _, rfl⟩ := hq
  rfl

/-- Claim C9: extracting a fixture page, persisting the extracted Post
records into an empty store, and querying by the thread identifier returns
records equal on all non-timestamp fields to the extracted records. -/
theorem extract_persist_roundtrip (tid : String) (rows : List PostRow) (now : Nat)
    (hnodup : (((postsExtract tid rows).1).map PostRec.id).Nodup) :
    (get_posts_by_thread tid
        (upsert_posts now [] (postsExtract tid rows).1)).map stripTimestamp =
      (postsExtract tid rows).1 := by
  have hthread := postsExtract_thread tid rows
  have happ := upsert_posts_append now ((postsExtract tid rows).1) []
    (fun q _ => List.not_mem_nil q.id) hnodup
  rw [happ, List.nil_append, get_posts_by_thread]
  have hfilter : (((postsExtract tid rows).1).map (storePost now)).filter
      (fun r => r.thread == tid) = ((postsExtract tid rows).1).map (storePost now) := by
    rw [List.filter_eq_self]
    intro r hr
    rw [List.mem_map] at hr
    obtain ⟨q, hq, rfl⟩ := hr
    have h := hthread q hq
    simp [storePost, h]
  rw [hfilter, List.map_map]
  have hcomp : stripTimestamp ∘ storePost now = id := rfl
  rw [hcomp, List.map_id]

/-- Witness for C9: the two-row duplicate-author fixture round-trips through
the store. -/
theorem extract_persist_roundtrip_witness :
    (((postsExtract "t.1" sampleRows).1).map PostRec.id).Nodup ∧
    (get_posts_by_thread "t.1"
        (upsert_posts 7 [] (postsExtract "t.1" sampleRows).1)).map stripTimestamp =
      (postsExtract "t.1" sampleRows).1 :=
  ⟨by decide, extract_persist_roundtrip "t.1" sampleRows 7 (by decide)⟩

/-- Claim C8 counterexample: the stored Post table as the notebook prints it
carries a `username` column, which the claimed column set omits, so the
claimed set of Post columns is not exact. -/
theorem stored_post_schema_mismatch :
    "username" ∈ storedPostColumns samplePost ∧
    "username" ∉ claimedPostColumnsC8 := by
  decide

/-- Claim C8 (amended): the stored Post table is keyed by id and has exactly
the columns {id, user_id, username, thread, message, likes, time_posted,
last_updated}; the stored User table is keyed by id with exactly the columns
{id, username, role, join_date, messages, reaction_score, points,
last_updated}.  Keying by id: an upsert into a store with duplicate-free ids
leaves the ids duplicate-free and the upserted id present. -/
theorem stored_schema_columns (r : StoredPost) (u : StoredUser) (now : Nat)
    (db : List StoredPost) (p : PostRec)
    (hnodup : (db.map StoredPost.id).Nodup) :
    storedPostColumns r = ["id", "user_id", "username", "thread", "message",
      "likes", "time_posted", "last_updated"] ∧
    storedUserColumns u = ["id", "username", "role", "join_date", "messages",
      "reaction_score", "points", "last_updated"] ∧
    ((upsertPost now db p).map StoredPost.id).Nodup ∧
    p.id ∈ (upsertPost now db p).map StoredPost.id := by
  refine ⟨rfl, rfl, ?_, ?_⟩
  · rw [upsertPost]
    by_cases h : p.id ∈ db.map StoredPost.id
    · rw [if_pos h, upsert_overwrite_map_id]
      exact hnodup
    · rw [if_neg h, List.map_append]
      simp only [List.map_cons, List.map_nil]
      rw [List.nodup_append]
      refine ⟨hnodup, List.nodup_singleton _, ?_⟩
      intro a ha hb
      simp only [List.mem_singleton] at hb
      have : (storePost now p).id = p.id := rfl
      rw [this] at hb
      exact h (hb ▸ ha)
  · rw [upsertPost]
    by_cases h : p.id ∈ db.map StoredPost.id
    · rw [if_pos h, upsert_overwrite_map_id]
      exact h
    · rw [if_neg h, List.map_append, List.mem_append]
      right
      simp [storePost]

/-- Witness for C8 (amended): the empty store has duplicate-free ids, and an
upsert of a concrete record into it behaves as stated. -/
theorem stored_schema_columns_witness :
    (([] : List StoredPost).map StoredPost.id).Nodup ∧
    storedPostColumns samplePost = ["id", "user_id", "username", "thread", "message",
      "likes", "time_posted", "last_updated"] ∧
    samplePostRec.id ∈ (upsertPost 7 [] samplePostRec).map StoredPost.id := by
  have h := stored_schema_columns samplePost sampleUser 7 [] samplePostRec (by decide)
  exact ⟨by decide, h.1, h.2.2.2⟩

/-- Claim C10: every extracted Post record carries the author's username in
addition to the user id, and the stored Post rows returned by the
persistence query surface carry a username column holding that value. -/
theorem posts_carry_username (tid : String) (rows : List PostRow) (now : Nat)
    (p : PostRec) (r : StoredPost) :
    ((postsExtract tid rows).1).map PostRec.username =
      rows.map (fun x => x.author.username) ∧
    (storePost now p).username = p.username ∧
    ("username", r.username) ∈ storedPostToRow r ∧
    "username" ∈ storedPostColumns r := by
  refine ⟨?_, rfl, ?_, ?_⟩
  · show (rows.map (rowToPost tid)).map PostRec.username = _
    rw [List.map_map]
    rfl
  · simp [storedPostToRow]
  · simp [storedPostColumns, storedPostToRow]

end Spacer
